import Mathlib

/-!
Verification of `volatility/framework/configuration/depresolver.py`.

The development shallowly embeds the dependency resolver: capability values,
providers, requirements, the provider registry caches, the capability-matching
predicate (`satisfies` / `common_provision`), the recursive tree builder
(`build_tree`), the runtime validator/committer (`validate_dependencies`), the
requirement-tree node classes, and the visitor traversal protocol.

Modelling conventions:
- Capability keys and value tokens are opaque; both are embedded as `Nat`.
- Python dicts that are only ever read by key lookup are association lists
  (`List (Nat × CVal)`); the aggregated capability index, which is only read
  through `get` with a default, is a total function `Nat → List Nat`.
- A Python value that is "a single token or a list of tokens" is `CVal`.
- External collaborators (the configuration store, `Requirement.validate`,
  `Provider.fulfill`) are parameters: the store and the validation callback
  live in `Ctx`, the commit callback in `VEnv`.
- Exceptions that the source catches locally are embedded as `Bool`/`Option`
  results; exceptions that escape are embedded with `Except PyErr`.
-/

/-- A capability value: either a single opaque token or a list of tokens
(`provider.provides[k]` / `requirement.constraints[k]` in the source). -/
inductive CVal where
  | single (v : Nat)
  | multi (vs : List Nat)
deriving DecidableEq, Repr

/-- Normalization of a capability value to a list of tokens: the
`if not isinstance(value, list): value = [value]` step of `common_provision`
and of `_build_caches`. -/
def CVal.norm : CVal → List Nat
  | .single v => [v]
  | .multi vs => vs

/-- A provider descriptor: `priority` and the `provides` mapping, plus an
opaque identity `pid` (Python object identity, used by the set semantics of
the registry cache and as the candidate-map key). The provider's own schema
is supplied externally by the build environment, mirroring `get_schema()`. -/
structure Provider where
  pid : Nat
  priority : Int
  provides : List (Nat × CVal)
deriving DecidableEq, Repr

/-- A requirement from a configurable's schema. `isConstraint` embeds the
`isinstance(subreq, ConstraintInterface)` test of `build_tree`; the
`validate` callback is external and lives in `Ctx`. -/
structure Requirement where
  name : String
  optional : Bool
  isConstraint : Bool
  constraints : List (Nat × CVal)
deriving DecidableEq, Repr

/-- `DependencyResolver.common_provision`: normalizes both values to lists
and returns their set intersection. -/
def common_provision (value1 value2 : CVal) : List Nat :=
  (CVal.norm value1).filter (fun t => t ∈ CVal.norm value2)

/-- `DependencyResolver.satisfies`: folds over the requirement's constraints;
a key the provider declares must have a non-empty `common_provision` overlap,
a key the provider does not declare leaves the accumulator unchanged. -/
def satisfies (provider : Provider) (requirement : Requirement) : Bool :=
  requirement.constraints.foldl
    (fun satisfied kv =>
      match provider.provides.lookup kv.1 with
      | some pv => satisfied && !(common_provision pv kv.2).isEmpty
      | none => satisfied)
    true

/-- The per-constraint check that `satisfies` conjoins: vacuously true when
the provider does not declare the key. -/
def constraintOk (provider : Provider) (kv : Nat × CVal) : Bool :=
  match provider.provides.lookup kv.1 with
  | some pv => !(common_provision pv kv.2).isEmpty
  | none => true

theorem satisfies_foldl_general (p : Provider) (l : List (Nat × CVal)) (b : Bool) :
    l.foldl
      (fun satisfied kv =>
        match p.provides.lookup kv.1 with
        | some pv => satisfied && !(common_provision pv kv.2).isEmpty
        | none => satisfied)
      b = (b && l.all (constraintOk p)) := by
  induction l generalizing b with
  | nil => simp
  | cons kv rest ih =>
    simp only [List.foldl_cons, List.all_cons]
    cases hl : p.provides.lookup kv.1 with
    | none =>
      rw [ih]
      simp [constraintOk, hl]
    | some pv =>
      rw [ih]
      simp [constraintOk, hl, Bool.and_assoc]

theorem satisfies_eq_all (p : Provider) (r : Requirement) :
    satisfies p r = r.constraints.all (constraintOk p) := by
  rw [satisfies, satisfies_foldl_general]
  simp

/-- C1: `satisfies(p, r)` is true iff every constraint key that the provider
also declares has a non-empty `common_provision` overlap; a key absent from
`p.provides` is skipped and never causes failure, and a requirement with
empty constraints is always satisfied. -/
theorem satisfies_iff_declared_keys_overlap (p : Provider) (r : Requirement) :
    (satisfies p r = true ↔
      ∀ kv ∈ r.constraints, ∀ pv, p.provides.lookup kv.1 = some pv →
        common_provision pv kv.2 ≠ []) ∧
    (r.constraints = [] → satisfies p r = true) := by
  constructor
  · rw [satisfies_eq_all, List.all_eq_true]
    constructor
    · intro h kv hkv pv hpv
      have := h kv hkv
      rw [constraintOk, hpv] at this
      simpa [List.isEmpty_iff] using this
    · intro h kv hkv
      rw [constraintOk]
      cases hl : p.provides.lookup kv.1 with
      | none => rfl
      | some pv =>
        have := h kv hkv pv hl
        simpa [List.isEmpty_iff] using this
  · intro h
    rw [satisfies_eq_all, h]
    rfl

/-- Witness for C1 at a concrete provider and requirement: the provider
declares key 1 with an overlapping value, does not declare key 2 at all,
and is satisfied. -/
theorem satisfies_iff_declared_keys_overlap_witness :
    (satisfies ⟨0, 10, [(1, CVal.multi [3, 4])]⟩
        ⟨"req", false, true, [(1, CVal.single 4), (2, CVal.single 9)]⟩ = true ↔
      ∀ kv ∈ [(1, CVal.single 4), (2, CVal.single 9)], ∀ pv,
        ([(1, CVal.multi [3, 4])] : List (Nat × CVal)).lookup kv.1 = some pv →
          common_provision pv kv.2 ≠ []) ∧
    (([(1, CVal.single 4), (2, CVal.single 9)] : List (Nat × CVal)) = [] →
      satisfies ⟨0, 10, [(1, CVal.multi [3, 4])]⟩
        ⟨"req", false, true, [(1, CVal.single 4), (2, CVal.single 9)]⟩ = true) :=
  satisfies_iff_declared_keys_overlap ⟨0, 10, [(1, CVal.multi [3, 4])]⟩
    ⟨"req", false, true, [(1, CVal.single 4), (2, CVal.single 9)]⟩

/-!
## Provider registry: `_build_caches` and the priority-sorted providers cache
-/

/-- The state `_build_caches` accumulates: `self.provides` (the aggregated
capability index, read only through `get(k, set())`, hence a total function
to a token set) and `cache` (a Python `set` of providers, embedded as a
duplicate-free list in insertion order). -/
structure Caches where
  provides : Nat → List Nat
  cache : List Provider

/-- Set-insertion into the provider cache (`cache.add(provider)`). -/
def cacheAdd (cache : List Provider) (p : Provider) : List Provider :=
  if p ∈ cache then cache else cache ++ [p]

/-- Set union on token lists kept duplicate-free
(`new_v.add(v)` / `set().union(set(v))` after normalization). -/
def tokUnion (old new : List Nat) : List Nat :=
  old ++ new.filter (fun t => t ∉ old)

/-- One iteration of the inner `for k, v in provider.provides.items()` loop of
`_build_caches`: merge the normalized value into the index at its key, and add
the provider to the cache (the `cache.add(provider)` call sits inside this
inner loop). -/
def cachesStep (p : Provider) (c : Caches) (kv : Nat × CVal) : Caches :=
  { provides := fun k => if k = kv.1 then tokUnion (c.provides kv.1) (CVal.norm kv.2)
                         else c.provides k,
    cache := cacheAdd c.cache p }

/-- `DependencyResolver._build_caches`: fold the inner loop over every
enumerated provider's `provides` items. -/
def build_caches (enumeration : List Provider) : Caches :=
  enumeration.foldl (fun c p => p.provides.foldl (cachesStep p) c)
    ⟨fun _ => [], []⟩

/-- Descending-priority comparison used by
`sorted(..., key = lambda x: -x.priority)`. -/
def prioGE (a b : Provider) : Prop := b.priority ≤ a.priority

instance : DecidableRel prioGE := fun a b =>
  inferInstanceAs (Decidable (b.priority ≤ a.priority))

instance : IsTotal Provider prioGE := ⟨fun a b => le_total b.priority a.priority⟩

instance : IsTrans Provider prioGE := ⟨fun _ _ _ hab hbc => le_trans hbc hab⟩

/-- `DependencyResolver.__init__`: the providers cache is the `_build_caches`
result sorted by descending priority (insertion sort is stable, like Python's
`sorted`). -/
def providers_cache (enumeration : List Provider) : List Provider :=
  (build_caches enumeration).cache.insertionSort prioGE

theorem cacheAdd_mem {cache : List Provider} {p q : Provider} :
    q ∈ cacheAdd cache p ↔ q ∈ cache ∨ q = p := by
  unfold cacheAdd
  split
  · rename_i h
    constructor
    · exact Or.inl
    · rintro (hq | rfl) <;> [exact hq; exact h]
  · simp [or_comm]

theorem cacheAdd_nodup {cache : List Provider} {p : Provider} (h : cache.Nodup) :
    (cacheAdd cache p).Nodup := by
  unfold cacheAdd
  split
  · exact h
  · rename_i hne
    simpa [List.nodup_append] using ⟨h, hne⟩

theorem inner_cache_mem (p : Provider) (kvs : List (Nat × CVal)) (c : Caches)
    (q : Provider) :
    q ∈ (kvs.foldl (cachesStep p) c).cache ↔
      q ∈ c.cache ∨ (kvs ≠ [] ∧ q = p) := by
  induction kvs generalizing c with
  | nil => simp
  | cons kv rest ih =>
    rw [List.foldl_cons, ih]
    simp only [cachesStep, cacheAdd_mem]
    constructor
    · rintro ((hq | rfl) | ⟨-, rfl⟩)
      · exact Or.inl hq
      · exact Or.inr ⟨List.cons_ne_nil _ _, rfl⟩
      · exact Or.inr ⟨List.cons_ne_nil _ _, rfl⟩
    · rintro (hq | ⟨-, rfl⟩)
      · exact Or.inl (Or.inl hq)
      · exact Or.inl (Or.inr rfl)

theorem inner_cache_nodup (p : Provider) (kvs : List (Nat × CVal)) (c : Caches)
    (h : c.cache.Nodup) : (kvs.foldl (cachesStep p) c).cache.Nodup := by
  induction kvs generalizing c with
  | nil => exact h
  | cons kv rest ih =>
    rw [List.foldl_cons]
    exact ih _ (cacheAdd_nodup h)

theorem build_caches_cache_mem_aux (enumeration : List Provider) (c : Caches)
    (q : Provider) :
    q ∈ (enumeration.foldl (fun c p => p.provides.foldl (cachesStep p) c) c).cache ↔
      q ∈ c.cache ∨ (q ∈ enumeration ∧ q.provides ≠ []) := by
  induction enumeration generalizing c with
  | nil => simp
  | cons p rest ih =>
    rw [List.foldl_cons, ih, inner_cache_mem]
    constructor
    · rintro ((hq | ⟨hne, rfl⟩) | ⟨hq, hqp⟩)
      · exact Or.inl hq
      · exact Or.inr ⟨List.mem_cons_self _ _, hne⟩
      · exact Or.inr ⟨List.mem_cons_of_mem _ hq, hqp⟩
    · rintro (hq | ⟨hq, hqp⟩)
      · exact Or.inl (Or.inl hq)
      · rcases List.mem_cons.mp hq with rfl | hq
        · exact Or.inl (Or.inr ⟨hqp, rfl⟩)
        · exact Or.inr ⟨hq, hqp⟩

/-- Membership in the `_build_caches` provider cache: a provider is recorded
iff it was enumerated and its `provides` mapping has at least one entry. -/
theorem build_caches_cache_mem (enumeration : List Provider) (q : Provider) :
    q ∈ (build_caches enumeration).cache ↔
      q ∈ enumeration ∧ q.provides ≠ [] := by
  rw [build_caches, build_caches_cache_mem_aux]
  simp

theorem build_caches_cache_nodup (enumeration : List Provider) :
    (build_caches enumeration).cache.Nodup := by
  rw [build_caches]
  generalize hc : (⟨fun _ => [], []⟩ : Caches) = c
  have h : c.cache.Nodup := by rw [← hc]; exact List.nodup_nil
  clear hc
  induction enumeration generalizing c with
  | nil => exact h
  | cons p rest ih =>
    rw [List.foldl_cons]
    exact ih _ (inner_cache_nodup p _ _ h)

theorem providers_cache_mem (enumeration : List Provider) (q : Provider) :
    q ∈ providers_cache enumeration ↔ q ∈ enumeration ∧ q.provides ≠ [] := by
  rw [providers_cache, List.mem_insertionSort, build_caches_cache_mem]

theorem providers_cache_sorted (enumeration : List Provider) :
    (providers_cache enumeration).Pairwise prioGE := by
  exact List.sorted_insertionSort prioGE _

theorem providers_cache_nodup (enumeration : List Provider) :
    (providers_cache enumeration).Nodup := by
  rw [providers_cache]
  exact (List.perm_insertionSort prioGE _).nodup_iff.mpr
    (build_caches_cache_nodup enumeration)

theorem tokUnion_mem {old new : List Nat} {t : Nat} :
    t ∈ tokUnion old new ↔ t ∈ old ∨ t ∈ new := by
  unfold tokUnion
  by_cases h : t ∈ old <;> simp [List.mem_filter, h]

theorem inner_provides_mem (p : Provider) (kvs : List (Nat × CVal)) (c : Caches)
    (k t : Nat) :
    t ∈ (kvs.foldl (cachesStep p) c).provides k ↔
      t ∈ c.provides k ∨ ∃ kv ∈ kvs, kv.1 = k ∧ t ∈ CVal.norm kv.2 := by
  induction kvs generalizing c with
  | nil => simp
  | cons kv rest ih =>
    rw [List.foldl_cons, ih]
    simp only [cachesStep, List.mem_cons]
    constructor
    · rintro (hq | ⟨kv', hkv', rfl, ht⟩)
      · by_cases hk : k = kv.1
        · subst hk
          rw [if_pos rfl, tokUnion_mem] at hq
          rcases hq with hq | hq
          · exact Or.inl hq
          · exact Or.inr ⟨kv, Or.inl rfl, rfl, hq⟩
        · rw [if_neg hk] at hq
          exact Or.inl hq
      · exact Or.inr ⟨kv', Or.inr hkv', rfl, ht⟩
    · rintro (hq | ⟨kv', hkv' | hkv', rfl, ht⟩)
      · left
        by_cases hk : k = kv.1
        · subst hk
          rw [if_pos rfl, tokUnion_mem]
          exact Or.inl hq
        · rwa [if_neg hk]
      · subst hkv'
        left
        rw [if_pos rfl, tokUnion_mem]
        exact Or.inr ht
      · exact Or.inr ⟨kv', hkv', rfl, ht⟩

theorem build_caches_provides_mem_aux (enumeration : List Provider) (c : Caches)
    (k t : Nat) :
    t ∈ (enumeration.foldl (fun c p => p.provides.foldl (cachesStep p) c) c).provides k ↔
      t ∈ c.provides k ∨
        ∃ p ∈ enumeration, ∃ kv ∈ p.provides, kv.1 = k ∧ t ∈ CVal.norm kv.2 := by
  induction enumeration generalizing c with
  | nil => simp
  | cons p rest ih =>
    rw [List.foldl_cons, ih, inner_provides_mem]
    constructor
    · rintro ((hq | ⟨kv, hkv, rfl, ht⟩) | ⟨q, hq, kv, hkv, rfl, ht⟩)
      · exact Or.inl hq
      · exact Or.inr ⟨p, List.mem_cons_self _ _, kv, hkv, rfl, ht⟩
      · exact Or.inr ⟨q, List.mem_cons_of_mem _ hq, kv, hkv, rfl, ht⟩
    · rintro (hq | ⟨q, hq, kv, hkv, rfl, ht⟩)
      · exact Or.inl (Or.inl hq)
      · rcases List.mem_cons.mp hq with rfl | hq
        · exact Or.inl (Or.inr ⟨kv, hkv, rfl, ht⟩)
        · exact Or.inr ⟨q, hq, kv, hkv, rfl, ht⟩

/-- The aggregated capability index maps each key to the union, over all
enumerated providers, of the normalized value sets they declare for it. -/
theorem build_caches_provides_mem (enumeration : List Provider) (k t : Nat) :
    t ∈ (build_caches enumeration).provides k ↔
      ∃ p ∈ enumeration, ∃ kv ∈ p.provides, kv.1 = k ∧ t ∈ CVal.norm kv.2 := by
  rw [build_caches, build_caches_provides_mem_aux]
  simp

/-- C7 counterexample: a provider whose `provides` mapping is empty is
enumerated but never recorded in the providers cache, because the
`cache.add(provider)` call sits inside the loop over `provides.items()`,
whose body never runs. The claim says the provider is recorded regardless
of having zero entries; at this input it is not. -/
theorem registry_records_empty_provider_false :
    (⟨0, 5, []⟩ : Provider) ∈ [(⟨0, 5, []⟩ : Provider)] ∧
      (⟨0, 5, []⟩ : Provider) ∉ providers_cache [⟨0, 5, []⟩] := by
  constructor
  · exact List.mem_singleton.mpr rfl
  · intro h
    have := (providers_cache_mem [⟨0, 5, []⟩] ⟨0, 5, []⟩).mp h
    exact this.2 rfl

/-- C7 (amended): registry construction records an enumerated provider in the
priority-sorted providers list iff its `provides` mapping has at least one
entry (providers with an empty `provides` are skipped, since `cache.add` is
inside the loop over the entries), and the capability index maps each key to
the union of all enumerated providers' normalized declared value sets for
that key. -/
theorem registry_cache_and_index_characterization :
    (∀ enumeration : List Provider, ∀ q : Provider,
      q ∈ providers_cache enumeration ↔ q ∈ enumeration ∧ q.provides ≠ []) ∧
    (∀ enumeration : List Provider, ∀ k t : Nat,
      t ∈ (build_caches enumeration).provides k ↔
        ∃ p ∈ enumeration, ∃ kv ∈ p.provides, kv.1 = k ∧ t ∈ CVal.norm kv.2) :=
  ⟨providers_cache_mem, build_caches_provides_mem⟩

/-!
## Requirement tree data model

The builder's docstring fixes the tree grammar:
`DEPTREE = [ REQUIREMENT ... ]`, `REQUIREMENT = ( NODE | LEAF )`,
`NODE = req, { candidate : DEPTREE, ... }`, `LEAF = req`.
`RTNode` embeds a `REQUIREMENT` (a `RequirementTreeReq` leaf or a
`RequirementTreeChoice`), `RTCands` the ordered candidate map
(`OrderedDict`, keyed by provider), and `RTList` the `children` list of a
`RequirementTreeList`.
-/

mutual

inductive RTNode where
  | req (requirement : Requirement)
  | choice (requirement : Requirement) (candidates : RTCands)

inductive RTCands where
  | nil
  | cons (provider : Provider) (subtree : RTList) (rest : RTCands)

inductive RTList where
  | nil
  | cons (node : RTNode) (rest : RTList)

end

deriving instance DecidableEq for RTNode, RTCands, RTList

/-- The ordered keys of a candidate map (the iteration order of the
`OrderedDict`). -/
def RTCands.keys : RTCands → List Provider
  | .nil => []
  | .cons p _ rest => p :: rest.keys

/-!
## Tree builder (`DependencyResolver.build_tree`)

`build_tree` recurses through providers' own schemas via the registry; the
source has no cycle guard (a known TODO), so the embedding threads explicit
fuel, consumed once per recursive per-provider build. `BuildResult.fuelOut`
marks runs the source would not finish; every claim about the builder is
stated away from `fuelOut`.
-/

/-- The build environment: the priority-sorted providers cache of the
resolver, and the external `get_schema()` of each provider. -/
structure BuildEnv where
  providersCache : List Provider
  schema : Provider → List Requirement

/-- Outcome of `build_tree`: a tree, a raised
`DependencyError("No solutions to fulfill requirement " + repr(subreq))`
carrying the unsatisfiable requirement, or fuel exhaustion. -/
inductive BuildResult where
  | ok (t : RTList)
  | depError (r : Requirement)
  | fuelOut

/-- Outcome of the per-requirement candidate scan. -/
inductive CandsResult where
  | cands (c : RTCands)
  | fuelOut

deriving instance DecidableEq for BuildResult

deriving instance DecidableEq for CandsResult

mutual

/-- `DependencyResolver.build_tree`, iterating `configurable.get_schema()`:
a non-constraint requirement appends a `RequirementTreeReq` leaf; a
constraint requirement scans the providers cache for candidates, raises
`DependencyError` when the candidate map comes back empty, and otherwise
appends a `RequirementTreeChoice`. -/
def build_tree (env : BuildEnv) (fuel : Nat) : List Requirement → BuildResult
  | [] => .ok .nil
  | r :: rest =>
    if r.isConstraint then
      match buildCands env fuel r env.providersCache with
      | .fuelOut => .fuelOut
      | .cands c =>
        match c with
        | .nil => .depError r
        | .cons p sub crest =>
          match build_tree env fuel rest with
          | .ok ts => .ok (.cons (.choice r (.cons p sub crest)) ts)
          | e => e
    else
      match build_tree env fuel rest with
      | .ok ts => .ok (.cons (.req r) ts)
      | e => e
termination_by sch => (fuel, 2, sch.length)

/-- The `for potential in self.providers_cache` loop of `build_tree`: a
provider that satisfies the requirement is built recursively; a successful
build is recorded in scan order, a `DependencyError` discards only that
candidate (`except DependencyError: pass`). -/
def buildCands (env : BuildEnv) (fuel : Nat) (r : Requirement) :
    List Provider → CandsResult
  | [] => .cands .nil
  | p :: ps =>
    if satisfies p r then
      match buildProvider env fuel p with
      | .ok t =>
        match buildCands env fuel r ps with
        | .cands c => .cands (.cons p t c)
        | .fuelOut => .fuelOut
      | .depError _ => buildCands env fuel r ps
      | .fuelOut => .fuelOut
    else buildCands env fuel r ps
termination_by ps => (fuel, 1, ps.length)

/-- The recursive `self.build_tree(potential)` call on a candidate provider,
consuming one unit of fuel. -/
def buildProvider (env : BuildEnv) (fuel : Nat) (p : Provider) : BuildResult :=
  match fuel with
  | 0 => .fuelOut
  | fuel' + 1 => build_tree env fuel' (env.schema p)
termination_by (fuel, 0, 0)

end

theorem buildCands_nil_iff (env : BuildEnv) (fuel : Nat) (r : Requirement)
    (ps : List Provider) :
    buildCands env fuel r ps = .cands .nil ↔
      ∀ p ∈ ps, satisfies p r = true →
        ∃ r', buildProvider env fuel p = .depError r' := by
  induction ps with
  | nil => simp [buildCands]
  | cons p ps ih =>
    rw [buildCands]
    by_cases hs : satisfies p r
    · rw [if_pos hs]
      cases hb : buildProvider env fuel p with
      | ok t =>
        cases hrest : buildCands env fuel r ps with
        | cands c =>
          simp only [hrest]
          constructor
          · intro h
            exact absurd h (by simp)
          · intro h
            rcases h p (List.mem_cons_self _ _) hs with ⟨r', hr'⟩
            rw [hb] at hr'
            exact absurd hr' (by simp)
        | fuelOut =>
          simp only [hrest]
          constructor
          · intro h
            exact absurd h (by simp)
          · intro h
            rcases h p (List.mem_cons_self _ _) hs with ⟨r', hr'⟩
            rw [hb] at hr'
            exact absurd hr' (by simp)
      | depError r'' =>
        rw [ih]
        constructor
        · intro h q hq hqs
          rcases List.mem_cons.mp hq with rfl | hq
          · exact ⟨r'', hb⟩
          · exact h q hq hqs
        · intro h q hq hqs
          exact h q (List.mem_cons_of_mem _ hq) hqs
      | fuelOut =>
        constructor
        · intro h
          exact absurd h (by simp)
        · intro h
          rcases h p (List.mem_cons_self _ _) hs with ⟨r', hr'⟩
          rw [hb] at hr'
          exact absurd hr' (by simp)
    · rw [if_neg hs]
      rw [ih]
      constructor
      · intro h q hq hqs
        rcases List.mem_cons.mp hq with rfl | hq
        · exact absurd hqs (by simpa using hs)
        · exact h q hq hqs
      · intro h q hq hqs
        exact h q (List.mem_cons_of_mem _ hq) hqs

/-- C2: processing a constrained requirement, `build_tree` raises
`DependencyError` naming that requirement exactly when the candidate scan
comes back empty, i.e. iff every registered provider either fails the
capability predicate or — having satisfied it — fails its own recursive
build with a `DependencyError`; this covers both the zero-satisfying-provider
case (the iff's right side holds vacuously) and the all-candidates-fail case,
and it holds with no hypothesis on `r.optional`, so also for optional
requirements. A `DependencyError` from a recursive per-candidate build is
consumed by the scan, which merely drops that candidate and continues with
the remaining providers. -/
theorem build_tree_depError_iff_no_candidate (env : BuildEnv) (fuel : Nat)
    (r : Requirement) (rest : List Requirement) (hc : r.isConstraint = true) :
    (buildCands env fuel r env.providersCache = .cands .nil ↔
      ∀ p ∈ env.providersCache, satisfies p r = true →
        ∃ r', buildProvider env fuel p = .depError r') ∧
    (buildCands env fuel r env.providersCache = .cands .nil →
      build_tree env fuel (r :: rest) = .depError r) ∧
    (∀ (p : Provider) (ps : List Provider) (r'' : Requirement),
      satisfies p r = true → buildProvider env fuel p = .depError r'' →
        buildCands env fuel r (p :: ps) = buildCands env fuel r ps) := by
  refine ⟨buildCands_nil_iff env fuel r _, ?_, ?_⟩
  · intro h
    rw [build_tree, if_pos hc, h]
  · intro p ps r'' hs hb
    rw [buildCands, if_pos hs, hb]

/-- Concrete environment for the builder witnesses: provider 1 satisfies the
constrained requirement but its own schema contains an unsatisfiable
constraint, provider 2 does not satisfy it. -/
def rConW : Requirement := ⟨"layer", true, true, [(1, CVal.single 1)]⟩

def rBadW : Requirement := ⟨"bad", false, true, [(9, CVal.single 9)]⟩

def pW1 : Provider := ⟨1, 10, [(1, CVal.single 1), (9, CVal.single 0)]⟩

def pW2 : Provider := ⟨2, 5, [(1, CVal.single 2), (9, CVal.single 0)]⟩

def envW : BuildEnv :=
  ⟨[pW1, pW2], fun p => if p.pid = 1 then [rBadW] else []⟩

/-- Witness for C2 at a concrete registry: `rConW` is optional and
constrained, `pW1` satisfies it but fails transitively (its own schema holds
the unsatisfiable `rBadW`), `pW2` does not satisfy it, and the build raises
`DependencyError` naming `rConW`. -/
theorem build_tree_depError_iff_no_candidate_witness :
    ((buildCands envW 3 rConW envW.providersCache = .cands .nil ↔
      ∀ p ∈ envW.providersCache, satisfies p rConW = true →
        ∃ r', buildProvider envW 3 p = .depError r') ∧
    (buildCands envW 3 rConW envW.providersCache = .cands .nil →
      build_tree envW 3 (rConW :: []) = .depError rConW) ∧
    (∀ (p : Provider) (ps : List Provider) (r'' : Requirement),
      satisfies p rConW = true → buildProvider envW 3 p = .depError r'' →
        buildCands envW 3 rConW (p :: ps) = buildCands envW 3 rConW ps)) ∧
    buildCands envW 3 rConW envW.providersCache = .cands .nil ∧
    build_tree envW 3 [rConW] = .depError rConW := by
  refine ⟨build_tree_depError_iff_no_candidate envW 3 rConW [] rfl, ?_, ?_⟩
  · simp [build_tree, buildCands, buildProvider, envW, pW1, pW2, rConW, rBadW,
      satisfies, common_provision, CVal.norm, List.lookup]
  · simp [build_tree, buildCands, buildProvider, envW, pW1, pW2, rConW, rBadW,
      satisfies, common_provision, CVal.norm, List.lookup]

/-- Whether a build outcome is a successfully returned tree. -/
def BuildResult.isOk : BuildResult → Bool
  | .ok _ => true
  | _ => false

theorem buildCands_keys (env : BuildEnv) (fuel : Nat) (r : Requirement) :
    ∀ (ps : List Provider) (c : RTCands), buildCands env fuel r ps = .cands c →
      c.keys = ps.filter
        (fun p => satisfies p r && (buildProvider env fuel p).isOk) := by
  intro ps
  induction ps with
  | nil =>
    intro c hc
    rw [buildCands] at hc
    cases hc
    rfl
  | cons p ps ih =>
    intro c hc
    rw [buildCands] at hc
    by_cases hs : satisfies p r
    · rw [if_pos hs] at hc
      cases hb : buildProvider env fuel p with
      | ok t =>
        rw [hb] at hc
        cases hrest : buildCands env fuel r ps with
        | cands c' =>
          rw [hrest] at hc
          cases hc
          have hf : (satisfies p r && (buildProvider env fuel p).isOk) = true := by
            rw [hs, hb]
            rfl
          rw [List.filter_cons]
          simp only [hf, if_true]
          rw [RTCands.keys, ih c' hrest]
        | fuelOut =>
          rw [hrest] at hc
          cases hc
      | depError r' =>
        have hf : (satisfies p r && (buildProvider env fuel p).isOk) = false := by
          rw [hs, hb]
          rfl
        rw [hb] at hc
        rw [List.filter_cons]
        simp only [hf, Bool.false_eq_true, if_false]
        exact ih c hc
      | fuelOut =>
        rw [hb] at hc
        cases hc
    · rw [if_neg hs] at hc
      have hf : (satisfies p r && (buildProvider env fuel p).isOk) = false := by
        rw [Bool.eq_false_iff.mpr hs]
        rfl
      rw [List.filter_cons]
      simp only [hf, Bool.false_eq_true, if_false]
      exact ih c hc

/-- C4: on a schema holding one constrained requirement, a successful
`build_tree` against the registry built from an enumeration with pairwise
distinct priorities produces exactly one `Choice` node, whose ordered
candidate map lists, in the registry scan order, the providers that satisfy
the requirement and build successfully — and that order is strictly
descending in priority, because `__init__` sorts the providers cache by
descending priority and the candidate map preserves the scan order. -/
theorem build_tree_choice_priority_order (enumeration : List Provider)
    (schemaFn : Provider → List Requirement) (fuel : Nat) (r : Requirement)
    (t : RTList)
    (hdist : ∀ p q : Provider, p ∈ enumeration → q ∈ enumeration → p ≠ q →
      p.priority ≠ q.priority)
    (hc : r.isConstraint = true)
    (hok : build_tree ⟨providers_cache enumeration, schemaFn⟩ fuel [r] = .ok t) :
    ∃ c : RTCands, t = .cons (.choice r c) .nil ∧
      c.keys = (providers_cache enumeration).filter
        (fun p => satisfies p r &&
          (buildProvider ⟨providers_cache enumeration, schemaFn⟩ fuel p).isOk) ∧
      c.keys.Pairwise (fun a b => b.priority < a.priority) := by
  rw [build_tree, if_pos hc] at hok
  cases hcs : buildCands ⟨providers_cache enumeration, schemaFn⟩ fuel r
      (providers_cache enumeration) with
  | fuelOut =>
    rw [show (⟨providers_cache enumeration, schemaFn⟩ : BuildEnv).providersCache =
      providers_cache enumeration from rfl, hcs] at hok
    cases hok
  | cands c =>
    rw [show (⟨providers_cache enumeration, schemaFn⟩ : BuildEnv).providersCache =
      providers_cache enumeration from rfl, hcs] at hok
    cases c with
    | nil => cases hok
    | cons p sub crest =>
      rw [build_tree] at hok
      cases hok
      refine ⟨.cons p sub crest, rfl, ?_, ?_⟩
      · exact buildCands_keys _ fuel r _ _ hcs
      · have hkeys := buildCands_keys _ fuel r _ _ hcs
        rw [hkeys]
        have hsub : List.Sublist
            ((providers_cache enumeration).filter
              (fun p => satisfies p r &&
                (buildProvider ⟨providers_cache enumeration, schemaFn⟩ fuel p).isOk))
            (providers_cache enumeration) := List.filter_sublist _
        have hge : ((providers_cache enumeration).filter _).Pairwise prioGE :=
          (providers_cache_sorted enumeration).sublist hsub
        have hne : ((providers_cache enumeration).filter _).Pairwise (· ≠ ·) :=
          ((providers_cache_nodup enumeration).sublist hsub)
        have hand := hge.and hne
        refine hand.imp_of_mem ?_
        intro a b ha hb hab
        have hamem : a ∈ enumeration :=
          ((providers_cache_mem enumeration a).mp (hsub.mem ha)).1
        have hbmem : b ∈ enumeration :=
          ((providers_cache_mem enumeration b).mp (hsub.mem hb)).1
        have hpne : a.priority ≠ b.priority := hdist a b hamem hbmem hab.2
        exact lt_of_le_of_ne hab.1 (fun h => hpne h.symm)

/-- Providers for the C4 witness: distinct priorities 10 > 5, both satisfy
the constrained requirement `rqW`. -/
def pV1 : Provider := ⟨3, 5, [(1, CVal.single 1)]⟩

def pV2 : Provider := ⟨4, 10, [(1, CVal.single 1)]⟩

def rqW : Requirement := ⟨"x", false, true, [(1, CVal.single 1)]⟩

def envV : BuildEnv := ⟨providers_cache [pV1, pV2], fun _ => []⟩

def candsV : RTCands := .cons pV2 .nil (.cons pV1 .nil .nil)

def treeV : RTList := .cons (.choice rqW candsV) .nil

theorem providers_cache_V : providers_cache [pV1, pV2] = [pV2, pV1] := by decide

theorem build_tree_V : build_tree envV 1 [rqW] = .ok treeV := by
  rw [show envV = ⟨[pV2, pV1], fun _ => []⟩ from by
    rw [envV, providers_cache_V]]
  simp [build_tree, buildCands, buildProvider, pV1, pV2, rqW, treeV, candsV,
    satisfies, common_provision, CVal.norm, List.lookup]

/-- Witness for C4: two providers with priorities 10 > 5 both satisfy the
constrained requirement; the built `Choice` lists them in descending
priority order. -/
theorem build_tree_choice_priority_order_witness :
    ∃ c : RTCands, treeV = .cons (.choice rqW c) .nil ∧
      c.keys = (providers_cache [pV1, pV2]).filter
        (fun p => satisfies p rqW &&
          (buildProvider ⟨providers_cache [pV1, pV2], fun _ => []⟩ 1 p).isOk) ∧
      c.keys.Pairwise (fun a b => b.priority < a.priority) :=
  build_tree_choice_priority_order [pV1, pV2] (fun _ => []) 1 rqW treeV
    (by
      intro p q hp hq hne
      rcases List.mem_cons.mp hp with rfl | hp <;>
        rcases List.mem_cons.mp hq with rfl | hq
      · exact absurd rfl hne
      · rcases List.mem_singleton.mp hq with rfl
        decide
      · rcases List.mem_singleton.mp hp with rfl
        decide
      · rcases List.mem_singleton.mp hp with rfl
        rcases List.mem_singleton.mp hq with rfl
        exact absurd rfl hne)
    rfl build_tree_V

/-!
## Non-empty `Choice` invariant (C6)
-/

mutual

/-- Every `Choice` node in this requirement node has a non-empty candidate
map. -/
def RTNode.noEmptyChoice : RTNode → Bool
  | .req _ => true
  | .choice _ c =>
    (match c with
     | .nil => false
     | .cons _ _ _ => true) && c.noEmptyChoiceC

/-- Every `Choice` node in any candidate subtree has a non-empty candidate
map. -/
def RTCands.noEmptyChoiceC : RTCands → Bool
  | .nil => true
  | .cons _ sub rest => sub.noEmptyChoiceL && rest.noEmptyChoiceC

/-- Every `Choice` node in this tree has a non-empty candidate map. -/
def RTList.noEmptyChoiceL : RTList → Bool
  | .nil => true
  | .cons n rest => n.noEmptyChoice && rest.noEmptyChoiceL

end

theorem buildCands_noEmptyChoice (env : BuildEnv) (fuel : Nat) (r : Requirement)
    (hprov : ∀ (p : Provider) (t : RTList),
      buildProvider env fuel p = .ok t → t.noEmptyChoiceL = true) :
    ∀ (ps : List Provider) (c : RTCands),
      buildCands env fuel r ps = .cands c → c.noEmptyChoiceC = true := by
  intro ps
  induction ps with
  | nil =>
    intro c hc
    rw [buildCands] at hc
    cases hc
    rfl
  | cons p ps ih =>
    intro c hc
    rw [buildCands] at hc
    by_cases hs : satisfies p r
    · rw [if_pos hs] at hc
      cases hb : buildProvider env fuel p with
      | ok t =>
        rw [hb] at hc
        cases hrest : buildCands env fuel r ps with
        | cands c' =>
          rw [hrest] at hc
          cases hc
          rw [RTCands.noEmptyChoiceC, hprov p t hb, ih c' hrest]
          rfl
        | fuelOut =>
          rw [hrest] at hc
          cases hc
      | depError r' =>
        rw [hb] at hc
        exact ih c hc
      | fuelOut =>
        rw [hb] at hc
        cases hc
    · rw [if_neg hs] at hc
      exact ih c hc

theorem build_tree_noEmptyChoice_core (env : BuildEnv) (fuel : Nat)
    (hprov : ∀ (p : Provider) (t : RTList),
      buildProvider env fuel p = .ok t → t.noEmptyChoiceL = true) :
    ∀ (sch : List Requirement) (t : RTList),
      build_tree env fuel sch = .ok t → t.noEmptyChoiceL = true := by
  intro sch
  induction sch with
  | nil =>
    intro t ht
    rw [build_tree] at ht
    cases ht
    rfl
  | cons r rest ih =>
    intro t ht
    rw [build_tree] at ht
    by_cases hc : r.isConstraint
    · rw [if_pos hc] at ht
      cases hcs : buildCands env fuel r env.providersCache with
      | fuelOut =>
        rw [hcs] at ht
        cases ht
      | cands c =>
        rw [hcs] at ht
        cases c with
        | nil => cases ht
        | cons p sub crest =>
          cases hrest : build_tree env fuel rest with
          | ok ts =>
            rw [hrest] at ht
            cases ht
            have hsub := buildCands_noEmptyChoice env fuel r hprov _ _ hcs
            rw [RTList.noEmptyChoiceL, RTNode.noEmptyChoice, hsub, ih ts hrest]
            rfl
          | depError r' =>
            rw [hrest] at ht
            cases ht
          | fuelOut =>
            rw [hrest] at ht
            cases ht
    · rw [if_neg hc] at ht
      cases hrest : build_tree env fuel rest with
      | ok ts =>
        rw [hrest] at ht
        cases ht
        rw [RTList.noEmptyChoiceL, RTNode.noEmptyChoice, ih ts hrest]
        rfl
      | depError r' =>
        rw [hrest] at ht
        cases ht
      | fuelOut =>
        rw [hrest] at ht
        cases ht

/-- C6: every `Choice` node in a tree successfully returned by `build_tree`
has a non-empty candidate map — an empty candidate scan raises
`DependencyError` instead of producing the node. -/
theorem build_tree_choices_nonempty (env : BuildEnv) (fuel : Nat)
    (sch : List Requirement) (t : RTList)
    (ht : build_tree env fuel sch = .ok t) : t.noEmptyChoiceL = true := by
  induction fuel generalizing sch t with
  | zero =>
    refine build_tree_noEmptyChoice_core env 0 ?_ sch t ht
    intro p t' hp
    rw [buildProvider] at hp
    cases hp
  | succ n ih =>
    refine build_tree_noEmptyChoice_core env (n + 1) ?_ sch t ht
    intro p t' hp
    rw [buildProvider] at hp
    exact ih _ _ hp

/-- Witness for C6: the concrete build of `treeV` satisfies the non-empty
`Choice` invariant. -/
theorem build_tree_choices_nonempty_witness : treeV.noEmptyChoiceL = true :=
  build_tree_choices_nonempty envV 1 [rqW] treeV build_tree_V

/-!
## Runtime validator / committer (`DependencyResolver.validate_dependencies`)

The live context is external: `config` embeds point reads of the
configuration store (`none` = raising read, caught by the validator's
`try`), `valOk` embeds the outcome of `requirement.validate(value, context)`
(`false` = the callback raised, also caught). The commit callback
`provider.fulfill(context, requirement, path)` is an arbitrary external
state transformer on this context; each call is also logged as a `Commit`
so side-effect counts can be stated.
-/

/-- `interfaces.configuration.CONFIG_SEPARATOR`. Modelled from the spec:
the constant itself is not under `src/`; the spec fixes only that paths are
"segments joined by a defined separator character", embedded here as `"."`. -/
def CONFIG_SEPARATOR : String := "."

/-- The external live context (configuration store plus the outcome of the
domain validation callbacks). -/
structure Ctx where
  config : String → Option Nat
  valOk : Requirement → Nat → Bool

/-- One `provider.fulfill(context, node.requirement, node_path)` call. -/
structure Commit where
  provider : Provider
  requirement : Requirement
  path : String
deriving DecidableEq, Repr

/-- The external commit callback of providers. -/
structure VEnv where
  fulfill : Provider → Requirement → String → Ctx → Ctx

/-- The body of the validator's `try` block at `node_path`: read the stored
value (a missing value raises, hence `false`), then run the requirement's
own validation callback (whose raising is also `false`). -/
def tryValidate (ctx : Ctx) (r : Requirement) (node_path : String) : Bool :=
  match ctx.config node_path with
  | none => false
  | some v => ctx.valOk r v

mutual

/-- `DependencyResolver.validate_dependencies` on `deptree.children`:
validates each child in order at `path`, stopping at the first failing
child; returns the boolean result, the mutated context, and the ordered
log of `fulfill` calls. -/
def validate_dependencies (env : VEnv) : RTList → Ctx → String →
    Bool × Ctx × List Commit
  | .nil, ctx, _ => (true, ctx, [])
  | .cons n rest, ctx, path =>
    match validateNode env n ctx path with
    | (true, ctx1, log1) =>
      match validate_dependencies env rest ctx1 path with
      | (b, ctx2, log2) => (b, ctx2, log1 ++ log2)
    | (false, ctx1, log1) => (false, ctx1, log1)

/-- One loop iteration of `validate_dependencies` on a single child node:
for a non-optional `Choice`, the candidate scan runs first (its `for ... else`
returns `False` outright when no candidate fulfills); in every other case and
after a successful scan, the node's own requirement is validated at
`node_path` inside `try`, an exception being swallowed iff the requirement
is optional. -/
def validateNode (env : VEnv) : RTNode → Ctx → String → Bool × Ctx × List Commit
  | .req r, ctx, path =>
    ((tryValidate ctx r (path ++ CONFIG_SEPARATOR ++ r.name) || r.optional),
      ctx, [])
  | .choice r cands, ctx, path =>
    let node_path := path ++ CONFIG_SEPARATOR ++ r.name
    if r.optional then
      ((tryValidate ctx r node_path || r.optional), ctx, [])
    else
      match scanCands env r node_path cands ctx with
      | (true, ctx1, log1) =>
        ((tryValidate ctx1 r node_path || r.optional), ctx1, log1)
      | (false, ctx1, log1) => (false, ctx1, log1)

/-- The `for provider in node.candidates` loop of `validate_dependencies`:
recursively validates each candidate subtree at `node_path`; the first
success triggers `provider.fulfill` and breaks, a failure keeps the failed
subtree's context mutations and moves on. -/
def scanCands (env : VEnv) (r : Requirement) (node_path : String) :
    RTCands → Ctx → Bool × Ctx × List Commit
  | .nil, ctx => (false, ctx, [])
  | .cons p sub rest, ctx =>
    match validate_dependencies env sub ctx node_path with
    | (true, ctx1, log1) =>
      (true, env.fulfill p r node_path ctx1, log1 ++ [⟨p, r, node_path⟩])
    | (false, ctx1, log1) =>
      match scanCands env r node_path rest ctx1 with
      | (b, ctx2, log2) => (b, ctx2, log1 ++ log2)

end

theorem sep_path_length (path name : String) :
    path.length < (path ++ CONFIG_SEPARATOR ++ name).length := by
  rw [String.length_append, String.length_append]
  have : CONFIG_SEPARATOR.length = 1 := rfl
  omega

mutual

/-- Every commit logged while validating a subtree at `path` happens at a
strictly longer configuration path. -/
theorem validate_log_longer (env : VEnv) (t : RTList) (ctx : Ctx) (path : String) :
    ∀ e ∈ (validate_dependencies env t ctx path).2.2,
      path.length < e.path.length := by
  cases t with
  | nil =>
    intro e he
    rw [validate_dependencies] at he
    cases he
  | cons n rest =>
    intro e he
    rw [validate_dependencies] at he
    rcases hn : validateNode env n ctx path with ⟨b1, ctx1, log1⟩
    rw [hn] at he
    cases b1 with
    | true =>
      simp only at he
      rcases hr : validate_dependencies env rest ctx1 path with ⟨b2, ctx2, log2⟩
      rw [hr] at he
      simp only at he
      rcases List.mem_append.mp he with h1 | h2
      · have := validateNode_log_longer env n ctx path e
        rw [hn] at this
        exact this h1
      · have := validate_log_longer env rest ctx1 path e
        rw [hr] at this
        exact this h2
    | false =>
      simp only at he
      have := validateNode_log_longer env n ctx path e
      rw [hn] at this
      exact this he

/-- Every commit logged while validating one node at `path` happens at a
strictly longer configuration path. -/
theorem validateNode_log_longer (env : VEnv) (n : RTNode) (ctx : Ctx)
    (path : String) :
    ∀ e ∈ (validateNode env n ctx path).2.2, path.length < e.path.length := by
  cases n with
  | req r =>
    intro e he
    rw [validateNode] at he
    cases he
  | choice r cands =>
    intro e he
    rw [validateNode] at he
    by_cases hopt : r.optional
    · rw [if_pos hopt] at he
      cases he
    · rw [if_neg hopt] at he
      rcases hs : scanCands env r (path ++ CONFIG_SEPARATOR ++ r.name) cands ctx
        with ⟨b1, ctx1, log1⟩
      rw [hs] at he
      have hmem : e ∈ log1 := by
        cases b1 <;> simpa using he
      have := scanCands_log_longer env r (path ++ CONFIG_SEPARATOR ++ r.name)
        cands ctx e
      rw [hs] at this
      exact lt_of_lt_of_le (sep_path_length path r.name) (this hmem)

/-- Every commit logged by the candidate scan at `node_path` happens at a
path at least as long as `node_path` (the scan's own `fulfill` commit is at
`node_path` itself, commits from candidate subtrees are strictly deeper). -/
theorem scanCands_log_longer (env : VEnv) (r : Requirement) (node_path : String)
    (cands : RTCands) (ctx : Ctx) :
    ∀ e ∈ (scanCands env r node_path cands ctx).2.2,
      node_path.length ≤ e.path.length := by
  cases cands with
  | nil =>
    intro e he
    rw [scanCands] at he
    cases he
  | cons p sub rest =>
    intro e he
    rw [scanCands] at he
    rcases hv : validate_dependencies env sub ctx node_path with ⟨b1, ctx1, log1⟩
    rw [hv] at he
    cases b1 with
    | true =>
      simp only at he
      rcases List.mem_append.mp he with h1 | h2
      · have := validate_log_longer env sub ctx node_path e
        rw [hv] at this
        exact le_of_lt (this h1)
      · rcases List.mem_singleton.mp h2 with rfl
        exact le_refl _
    | false =>
      simp only at he
      rcases hsc : scanCands env r node_path rest ctx1 with ⟨b2, ctx2, log2⟩
      rw [hsc] at he
      simp only at he
      rcases List.mem_append.mp he with h1 | h2
      · have := validate_log_longer env sub ctx node_path e
        rw [hv] at this
        exact le_of_lt (this h1)
      · have := scanCands_log_longer env r node_path rest ctx1 e
        rw [hsc] at this
        exact this h2

end

theorem filter_path_eq_nil {np : String} {log : List Commit}
    (h : ∀ e ∈ log, np.length < e.path.length) :
    log.filter (fun e => e.path == np) = [] := by
  rw [List.filter_eq_nil_iff]
  intro e he
  simp only [beq_iff_eq]
  intro hpath
  have := h e he
  rw [hpath] at this
  omega

theorem scanCands_filter (env : VEnv) (r : Requirement) (np : String)
    (cands : RTCands) :
    ∀ ctx : Ctx,
      ((scanCands env r np cands ctx).1 = true →
        ∃ p : Provider,
          (scanCands env r np cands ctx).2.2.filter (fun e => e.path == np) =
            [⟨p, r, np⟩]) ∧
      ((scanCands env r np cands ctx).1 = false →
        (scanCands env r np cands ctx).2.2.filter (fun e => e.path == np) = []) := by
  cases cands with
  | nil =>
    intro ctx
    rw [scanCands]
    exact ⟨fun h => absurd h (by simp), fun _ => rfl⟩
  | cons p sub rest =>
    intro ctx
    have ih := scanCands_filter env r np rest
    rw [scanCands]
    rcases hv : validate_dependencies env sub ctx np with ⟨b1, ctx1, log1⟩
    have hlog1 : log1.filter (fun e => e.path == np) = [] := by
      refine filter_path_eq_nil ?_
      intro e he
      have := validate_log_longer env sub ctx np e
      rw [hv] at this
      exact this he
    cases b1 with
    | true =>
      simp only
      refine ⟨fun _ => ⟨p, ?_⟩, fun h => absurd h (by simp)⟩
      rw [List.filter_append, hlog1]
      simp
    | false =>
      simp only
      rcases hsc : scanCands env r np rest ctx1 with ⟨b2, ctx2, log2⟩
      have hrest := ih ctx1
      rw [hsc] at hrest
      simp only at hrest
      cases b2 with
      | true =>
        refine ⟨fun _ => ?_, fun h => absurd h (by simp)⟩
        rcases hrest.1 rfl with ⟨q, hq⟩
        refine ⟨q, ?_⟩
        rw [List.filter_append, hlog1, hq]
        rfl
      | false =>
        refine ⟨fun h => absurd h (by simp), fun _ => ?_⟩
        rw [List.filter_append, hlog1, hrest.2 rfl]
        rfl

/-- C3: at a non-optional `Choice` node, the validator scans the stored
candidate map in order; once one candidate's subtree validates, the
remaining candidates are never examined (the scan result is independent of
them); the node contributes exactly one `fulfill` commit at its own
`node_path` when the scan succeeds — commits from candidate subtrees all
live at strictly deeper paths — and no commit at `node_path` plus an
immediate `false` result when every candidate fails. -/
theorem validate_choice_commits_once (env : VEnv) (r : Requirement)
    (cands : RTCands) (ctx : Ctx) (path : String)
    (hopt : r.optional = false) :
    ((scanCands env r (path ++ CONFIG_SEPARATOR ++ r.name) cands ctx).1 = false →
      validateNode env (.choice r cands) ctx path =
        (false, (scanCands env r (path ++ CONFIG_SEPARATOR ++ r.name) cands ctx).2.1,
          (scanCands env r (path ++ CONFIG_SEPARATOR ++ r.name) cands ctx).2.2)) ∧
    ((scanCands env r (path ++ CONFIG_SEPARATOR ++ r.name) cands ctx).1 = true →
      ∃ p : Provider,
        (validateNode env (.choice r cands) ctx path).2.2.filter
          (fun e => e.path == path ++ CONFIG_SEPARATOR ++ r.name) =
          [⟨p, r, path ++ CONFIG_SEPARATOR ++ r.name⟩]) ∧
    ((scanCands env r (path ++ CONFIG_SEPARATOR ++ r.name) cands ctx).1 = false →
      (validateNode env (.choice r cands) ctx path).2.2.filter
        (fun e => e.path == path ++ CONFIG_SEPARATOR ++ r.name) = []) ∧
    (∀ (p : Provider) (sub : RTList) (rest rest' : RTCands),
      (validate_dependencies env sub ctx (path ++ CONFIG_SEPARATOR ++ r.name)).1 =
          true →
        scanCands env r (path ++ CONFIG_SEPARATOR ++ r.name) (.cons p sub rest) ctx =
          scanCands env r (path ++ CONFIG_SEPARATOR ++ r.name) (.cons p sub rest')
            ctx) := by
  have hfil := scanCands_filter env r (path ++ CONFIG_SEPARATOR ++ r.name) cands ctx
  rcases hs : scanCands env r (path ++ CONFIG_SEPARATOR ++ r.name) cands ctx
    with ⟨b1, ctx1, log1⟩
  rw [hs] at hfil
  simp only at hfil
  have hnode : validateNode env (.choice r cands) ctx path =
      match (b1, ctx1, log1) with
      | (true, ctx1, log1) =>
        ((tryValidate ctx1 r (path ++ CONFIG_SEPARATOR ++ r.name) || r.optional),
          ctx1, log1)
      | (false, ctx1, log1) => (false, ctx1, log1) := by
    rw [validateNode, if_neg (by rw [hopt]; exact Bool.false_ne_true), hs]
  refine ⟨?_, ?_, ?_, ?_⟩
  · intro hb
    subst hb
    rw [hnode]
  · intro hb
    subst hb
    rw [hnode]
    simp only
    exact hfil.1 rfl
  · intro hb
    subst hb
    rw [hnode]
    simp only
    exact hfil.2 rfl
  · intro p sub rest rest' hv
    rw [scanCands, scanCands]
    rcases hvv : validate_dependencies env sub ctx
      (path ++ CONFIG_SEPARATOR ++ r.name) with ⟨bv, ctxv, logv⟩
    rw [hvv] at hv
    simp only at hv
    subst hv
    rfl

/-- A commit callback that leaves the context unchanged, for witnesses. -/
def envV0 : VEnv := ⟨fun _ _ _ ctx => ctx⟩

/-- A context whose store always holds `0` and whose validation callbacks
always accept, for witnesses. -/
def ctx0 : Ctx := ⟨fun _ => some 0, fun _ _ => true⟩

def cands0 : RTCands := .cons pV1 .nil .nil

/-- Witness for C3 at a concrete non-optional choice node with one
candidate whose subtree is empty (hence validates). -/
theorem validate_choice_commits_once_witness :
    ((scanCands envV0 rqW ("" ++ CONFIG_SEPARATOR ++ rqW.name) cands0 ctx0).1 =
        false →
      validateNode envV0 (.choice rqW cands0) ctx0 "" =
        (false,
          (scanCands envV0 rqW ("" ++ CONFIG_SEPARATOR ++ rqW.name) cands0
            ctx0).2.1,
          (scanCands envV0 rqW ("" ++ CONFIG_SEPARATOR ++ rqW.name) cands0
            ctx0).2.2)) ∧
    ((scanCands envV0 rqW ("" ++ CONFIG_SEPARATOR ++ rqW.name) cands0 ctx0).1 =
        true →
      ∃ p : Provider,
        (validateNode envV0 (.choice rqW cands0) ctx0 "").2.2.filter
          (fun e => e.path == "" ++ CONFIG_SEPARATOR ++ rqW.name) =
          [⟨p, rqW, "" ++ CONFIG_SEPARATOR ++ rqW.name⟩]) ∧
    ((scanCands envV0 rqW ("" ++ CONFIG_SEPARATOR ++ rqW.name) cands0 ctx0).1 =
        false →
      (validateNode envV0 (.choice rqW cands0) ctx0 "").2.2.filter
        (fun e => e.path == "" ++ CONFIG_SEPARATOR ++ rqW.name) = []) ∧
    (∀ (p : Provider) (sub : RTList) (rest rest' : RTCands),
      (validate_dependencies envV0 sub ctx0
          ("" ++ CONFIG_SEPARATOR ++ rqW.name)).1 = true →
        scanCands envV0 rqW ("" ++ CONFIG_SEPARATOR ++ rqW.name)
            (.cons p sub rest) ctx0 =
          scanCands envV0 rqW ("" ++ CONFIG_SEPARATOR ++ rqW.name)
            (.cons p sub rest') ctx0) :=
  validate_choice_commits_once envV0 rqW cands0 ctx0 "" rfl

/-- C5: for every node kind `validate_dependencies` processes — plain leaf,
optional `Choice`, and non-optional `Choice` after its candidate scan — a
failure inside the validator's `try` block (a raising store read —
`tryValidate`'s `none` case — or a raising `requirement.validate` callback —
its `false` case) is caught at the node: with an optional requirement the
failure is swallowed and the node counts as success with no commit and no
context change (for an optional `Choice` the scan is skipped entirely); with
a non-optional requirement the node yields `false` — at a non-optional
`Choice` the value check runs on the post-scan context and its commits are
kept — and a `false` node makes the whole validation return `false`
immediately, the remaining siblings never being examined (the result is
independent of them). No exception escapes: the embedded validator is
total, returning a boolean for every tree, context and path. -/
theorem validate_failure_caught (env : VEnv) (r : Requirement) (ctx : Ctx)
    (path : String) :
    (tryValidate ctx r (path ++ CONFIG_SEPARATOR ++ r.name) = false →
      r.optional = true →
      validateNode env (.req r) ctx path = (true, ctx, [])) ∧
    (∀ cands : RTCands,
      tryValidate ctx r (path ++ CONFIG_SEPARATOR ++ r.name) = false →
      r.optional = true →
      validateNode env (.choice r cands) ctx path = (true, ctx, [])) ∧
    (tryValidate ctx r (path ++ CONFIG_SEPARATOR ++ r.name) = false →
      r.optional = false →
      validateNode env (.req r) ctx path = (false, ctx, [])) ∧
    (∀ (cands : RTCands) (ctx1 : Ctx) (log1 : List Commit),
      r.optional = false →
      scanCands env r (path ++ CONFIG_SEPARATOR ++ r.name) cands ctx =
        (true, ctx1, log1) →
      tryValidate ctx1 r (path ++ CONFIG_SEPARATOR ++ r.name) = false →
      validateNode env (.choice r cands) ctx path = (false, ctx1, log1)) ∧
    (∀ (n : RTNode) (rest rest' : RTList),
      (validateNode env n ctx path).1 = false →
      validate_dependencies env (.cons n rest) ctx path =
        (false, (validateNode env n ctx path).2.1,
          (validateNode env n ctx path).2.2) ∧
      validate_dependencies env (.cons n rest) ctx path =
        validate_dependencies env (.cons n rest') ctx path) := by
  refine ⟨?_, ?_, ?_, ?_, ?_⟩
  · intro hf hopt
    rw [validateNode, hf, hopt]
    rfl
  · intro cands hf hopt
    rw [validateNode, if_pos hopt, hf, hopt]
    rfl
  · intro hf hopt
    rw [validateNode, hf, hopt]
    rfl
  · intro cands ctx1 log1 hopt hscan hf
    rw [validateNode, if_neg (by rw [hopt]; exact Bool.false_ne_true), hscan]
    simp only
    rw [hf, hopt]
    rfl
  · intro n rest rest' h
    rcases hn : validateNode env n ctx path with ⟨b, c1, l1⟩
    rw [hn] at h
    simp only at h
    subst h
    constructor
    · rw [validate_dependencies, hn]
    · rw [validate_dependencies, hn, validate_dependencies, hn]

/-- A context whose store is empty (every read raises), for witnesses. -/
def ctxF : Ctx := ⟨fun _ => none, fun _ _ => true⟩

def rPlain : Requirement := ⟨"n", false, false, []⟩

/-- Witness for C5: with an empty store every read raises; at the
non-optional requirement `rPlain` the leaf fails, a choice fails after a
successful scan, and a failing node ends sibling processing. -/
theorem validate_failure_caught_witness :
    (tryValidate ctxF rPlain ("" ++ CONFIG_SEPARATOR ++ rPlain.name) = false →
      rPlain.optional = true →
      validateNode envV0 (.req rPlain) ctxF "" = (true, ctxF, [])) ∧
    (∀ cands : RTCands,
      tryValidate ctxF rPlain ("" ++ CONFIG_SEPARATOR ++ rPlain.name) = false →
      rPlain.optional = true →
      validateNode envV0 (.choice rPlain cands) ctxF "" = (true, ctxF, [])) ∧
    (tryValidate ctxF rPlain ("" ++ CONFIG_SEPARATOR ++ rPlain.name) = false →
      rPlain.optional = false →
      validateNode envV0 (.req rPlain) ctxF "" = (false, ctxF, [])) ∧
    (∀ (cands : RTCands) (ctx1 : Ctx) (log1 : List Commit),
      rPlain.optional = false →
      scanCands envV0 rPlain ("" ++ CONFIG_SEPARATOR ++ rPlain.name) cands ctxF =
        (true, ctx1, log1) →
      tryValidate ctx1 rPlain ("" ++ CONFIG_SEPARATOR ++ rPlain.name) = false →
      validateNode envV0 (.choice rPlain cands) ctxF "" = (false, ctx1, log1)) ∧
    (∀ (n : RTNode) (rest rest' : RTList),
      (validateNode envV0 n ctxF "").1 = false →
      validate_dependencies envV0 (.cons n rest) ctxF "" =
        (false, (validateNode envV0 n ctxF "").2.1,
          (validateNode envV0 n ctxF "").2.2) ∧
      validate_dependencies envV0 (.cons n rest) ctxF "" =
        validate_dependencies envV0 (.cons n rest') ctxF "") :=
  validate_failure_caught envV0 rPlain ctxF ""

/-!
## Visitor traversal protocol (C8, C9)

`TreeVisitor` embeds the three hooks; visitors may carry state of any type
`σ` (the original's visitors are objects), each hook returning the updated
state and its boolean. The node-dispatch `candidate.apply(visitor)` used by
the `accept` loops is not defined under `src/`; modelled from the spec:
§4.3 specifies that traversal is depth-first — `enter`, the children in
declared order, then `leave`, with `visit` for leaves — so `apply` is
embedded as the child's own `accept`.
-/

/-- A reference to the node object handed to a visitor hook. -/
inductive NodeRef where
  | reqN (r : Requirement)
  | choiceN (r : Requirement) (c : RTCands)
  | listN (l : RTList)

/-- The `TreeVisitor` hook interface over visitor state `σ`. -/
structure TreeVisitor (σ : Type) where
  visit_enter : σ → NodeRef → σ × Bool
  visit_leave : σ → NodeRef → σ × Bool
  visit : σ → NodeRef → σ × Bool

mutual

/-- `accept` on a `REQUIREMENT` node: `RequirementTreeReq.accept` (inherited
from `RequirementTreeNode`) calls `visitor.visit(self)`;
`RequirementTreeChoice.accept` calls `visit_enter`, loops over the candidate
subtrees breaking on a false result, then returns `visit_leave`. -/
def RTNode.accept {σ : Type} (V : TreeVisitor σ) : RTNode → σ → σ × Bool
  | .req r, s => V.visit s (.reqN r)
  | .choice r c, s =>
    let e := V.visit_enter s (.choiceN r c)
    let s2 := if e.2 then acceptCandsLoop V c e.1 else e.1
    V.visit_leave s2 (.choiceN r c)
termination_by n => (sizeOf n, 0)

/-- The `for candidate in self.candidates` loop of
`RequirementTreeChoice.accept`. -/
def acceptCandsLoop {σ : Type} (V : TreeVisitor σ) : RTCands → σ → σ
  | .nil, s => s
  | .cons _ sub rest, s =>
    let res := RTList.accept V sub s
    if res.2 then acceptCandsLoop V rest res.1 else res.1
termination_by c => (sizeOf c, 0)

/-- `RequirementTreeList.accept`: `visit_enter`, the children loop breaking
on a false result, then `visit_leave`. -/
def RTList.accept {σ : Type} (V : TreeVisitor σ) : RTList → σ → σ × Bool
  | l, s =>
    let e := V.visit_enter s (.listN l)
    let s2 := if e.2 then acceptChildren V l e.1 else e.1
    V.visit_leave s2 (.listN l)
termination_by l => (sizeOf l, 1)

/-- The `for candidate in self.children` loop of
`RequirementTreeList.accept`. -/
def acceptChildren {σ : Type} (V : TreeVisitor σ) : RTList → σ → σ
  | .nil, s => s
  | .cons n rest, s =>
    let res := RTNode.accept V n s
    if res.2 then acceptChildren V rest res.1 else res.1
termination_by l => (sizeOf l, 0)

end

/-- C8: in the traversal protocol, a `List` node visits its children
depth-first in declared order and stops at the first child whose own
traversal result (`visit_leave` for a `Choice`, `visit` for a leaf) is
false: the loop's outcome is then the state after that child, independent of
every remaining sibling, so with children `A, B, C` and `A`'s result false,
neither `B` nor `C` is visited. -/
theorem accept_list_stops_on_false {σ : Type} (V : TreeVisitor σ) (A : RTNode) :
    (∀ (s : σ) (rest : RTList), (RTNode.accept V A s).2 = false →
      acceptChildren V (.cons A rest) s = (RTNode.accept V A s).1) ∧
    (∀ (s : σ) (rest rest' : RTList), (RTNode.accept V A s).2 = false →
      acceptChildren V (.cons A rest) s = acceptChildren V (.cons A rest') s) := by
  have key : ∀ (s : σ) (rest : RTList), (RTNode.accept V A s).2 = false →
      acceptChildren V (.cons A rest) s = (RTNode.accept V A s).1 := by
    intro s rest h
    rw [acceptChildren]
    simp only [h]
    rfl
  exact ⟨key, fun s rest rest' h => (key s rest h).trans (key s rest' h).symm⟩

/-- A concrete logging visitor for the C8 witness: records visited leaf
names, `visit` always answers false. -/
def logVisitor : TreeVisitor (List String) :=
  { visit_enter := fun s _ => (s, true),
    visit_leave := fun s _ => (s, true),
    visit := fun s n =>
      match n with
      | .reqN r => (s ++ [r.name], false)
      | _ => (s, false) }

/-- Witness for C8: with a visitor whose `visit` on the leaf `A` returns
false, the children loop of a `List` ends after `A`, whatever siblings
follow. -/
theorem accept_list_stops_on_false_witness :
    (∀ (s : List String) (rest : RTList),
      (RTNode.accept logVisitor (.req rPlain) s).2 = false →
      acceptChildren logVisitor (.cons (.req rPlain) rest) s =
        (RTNode.accept logVisitor (.req rPlain) s).1) ∧
    (∀ (s : List String) (rest rest' : RTList),
      (RTNode.accept logVisitor (.req rPlain) s).2 = false →
      acceptChildren logVisitor (.cons (.req rPlain) rest) s =
        acceptChildren logVisitor (.cons (.req rPlain) rest') s) :=
  accept_list_stops_on_false logVisitor (.req rPlain)

/-- Python exceptions that escape the embedded code (exceptions the source
catches are embedded as boolean results instead). -/
inductive PyErr where
  | attributeError
  | typeError
deriving DecidableEq, Repr

/-- `ValidateDependenciesVisitor.visit`: reads the store at the visitor's
`node_path` — which is fixed at construction and never updated during
traversal — and runs `node.requirement.validate` inside `try`, an exception
being swallowed iff the requirement is optional. On a
`RequirementTreeList` node there is no `requirement` attribute: whether or
not the store read raises, the handler's (or the `try` body's) access to
`node.requirement` raises `AttributeError`, which nothing catches. -/
def vdVisit (ctx : Ctx) (np : String) : NodeRef → Except PyErr Bool
  | .reqN r => .ok (tryValidate ctx r np || r.optional)
  | .choiceN r _ => .ok (tryValidate ctx r np || r.optional)
  | .listN _ => .error .attributeError

mutual

/-- Traversal of one node under `ValidateDependenciesVisitor`
(`visit_enter` always answers true, `visit_leave` delegates to `visit`);
exceptions raised by a hook propagate out of `accept`. -/
def acceptVDNode (ctx : Ctx) (np : String) : RTNode → Except PyErr Bool
  | .req r => vdVisit ctx np (.reqN r)
  | .choice r c =>
    match acceptVDCands ctx np c with
    | .error e => .error e
    | .ok _ => vdVisit ctx np (.choiceN r c)
termination_by n => (sizeOf n, 0)

/-- The candidate loop of `RequirementTreeChoice.accept` under the
validation visitor. -/
def acceptVDCands (ctx : Ctx) (np : String) : RTCands → Except PyErr Unit
  | .nil => .ok ()
  | .cons _ sub rest =>
    match acceptVDList ctx np sub with
    | .error e => .error e
    | .ok b => if b then acceptVDCands ctx np rest else .ok ()
termination_by c => (sizeOf c, 0)

/-- Traversal of a `RequirementTreeList` under the validation visitor. -/
def acceptVDList (ctx : Ctx) (np : String) (l : RTList) : Except PyErr Bool :=
  match acceptVDChildren ctx np l with
  | .error e => .error e
  | .ok _ => vdVisit ctx np (.listN l)
termination_by (sizeOf l, 1)

/-- The children loop of `RequirementTreeList.accept` under the validation
visitor. -/
def acceptVDChildren (ctx : Ctx) (np : String) : RTList → Except PyErr Unit
  | .nil => .ok ()
  | .cons n rest =>
    match acceptVDNode ctx np n with
    | .error e => .error e
    | .ok b => if b then acceptVDChildren ctx np rest else .ok ()
termination_by l => (sizeOf l, 0)

end

mutual

theorem acceptVDNode_shape (ctx : Ctx) (np : String) (n : RTNode) :
    acceptVDNode ctx np n = .error .attributeError ∨
      ∃ b, acceptVDNode ctx np n = .ok b := by
  cases n with
  | req r =>
    right
    rw [acceptVDNode]
    exact ⟨_, rfl⟩
  | choice r c =>
    rcases acceptVDCands_shape ctx np c with h | h
    · left
      rw [acceptVDNode, h]
    · right
      rw [acceptVDNode, h]
      exact ⟨_, rfl⟩

theorem acceptVDCands_shape (ctx : Ctx) (np : String) (c : RTCands) :
    acceptVDCands ctx np c = .error .attributeError ∨
      acceptVDCands ctx np c = .ok () := by
  cases c with
  | nil =>
    right
    rw [acceptVDCands]
  | cons p sub rest =>
    left
    rw [acceptVDCands, acceptVDList_err ctx np sub]

/-- The visitor-based traversal of any `RequirementTreeList` raises
`AttributeError`: even when every child survives, the final
`visit_leave(self)` on the list node reads the missing `requirement`
attribute. -/
theorem acceptVDList_err (ctx : Ctx) (np : String) (l : RTList) :
    acceptVDList ctx np l = .error .attributeError := by
  rcases acceptVDChildren_shape ctx np l with h | h
  · rw [acceptVDList, h]
  · rw [acceptVDList, h]
    rfl

theorem acceptVDChildren_shape (ctx : Ctx) (np : String) (l : RTList) :
    acceptVDChildren ctx np l = .error .attributeError ∨
      acceptVDChildren ctx np l = .ok () := by
  cases l with
  | nil =>
    right
    rw [acceptVDChildren]
  | cons n rest =>
    rcases acceptVDNode_shape ctx np n with h | ⟨b, h⟩
    · left
      rw [acceptVDChildren, h]
    · rw [acceptVDChildren, h]
      cases b with
      | true => exact acceptVDChildren_shape ctx np rest
      | false =>
        right
        rfl

end

/-- C9: the direct recursive validator and the visitor-based variant are NOT
observationally equivalent. On every tree — already on the empty
`RequirementTreeList` with a benign context — `validate_dependencies`
returns a boolean (`True` for the empty tree) while the
`ValidateDependenciesVisitor` traversal raises an uncaught `AttributeError`
at the root list node (`visit` reads `node.requirement`, which
`RequirementTreeList` does not have); the visitor moreover keeps a single
`node_path` fixed at construction and has no candidate-selection or
`fulfill` logic, so it cannot replicate the direct validator. -/
theorem visitor_validator_not_equivalent :
    validate_dependencies envV0 RTList.nil ctx0 "" = (true, ctx0, []) ∧
    (∀ (ctx : Ctx) (np : String) (l : RTList),
      acceptVDList ctx np l = .error .attributeError) := by
  constructor
  · rw [validate_dependencies]
  · exact acceptVDList_err

/-!
## `RequirementTreeChoice.__init__` (C10)
-/

/-- The `for k in candidates` iteration of `RequirementTreeChoice.__init__`:
iterating Python `None` raises `TypeError`; iterating an `OrderedDict`
yields its keys (the per-key `_check_class`/`_check_type` assertions always
pass in this typed embedding). -/
def pyIterKeys : Option RTCands → Except PyErr (List Provider)
  | none => .error .typeError
  | some c => .ok c.keys

/-- `RequirementTreeChoice.__init__(requirement, candidates)`: the
`for k in candidates` loop runs first, then `self.candidates = candidates`,
and only afterwards does the `if candidates is None` branch assign an empty
`OrderedDict` — that fallback is kept here exactly as in the source. -/
def RequirementTreeChoice_init (requirement : Requirement)
    (candidates : Option RTCands) : Except PyErr RTNode :=
  match pyIterKeys candidates with
  | .error e => .error e
  | .ok _ =>
    let stored : RTCands :=
      match candidates with
      | some c => c
      | none => RTCands.nil
    .ok (.choice requirement stored)

/-- C10: constructing a `RequirementTreeChoice` with the default
`candidates = None` always fails with `TypeError` — the `for k in
candidates` loop iterates `None` before the `if candidates is None`
fallback is reached — and consequently every successfully constructed
choice node stores exactly the non-`None` candidate map it was given, the
empty-map fallback being unreachable. -/
theorem choice_init_none_typeError :
    (∀ r : Requirement,
      RequirementTreeChoice_init r none = .error .typeError) ∧
    (∀ (r : Requirement) (cands : Option RTCands) (n : RTNode),
      RequirementTreeChoice_init r cands = .ok n →
        ∃ c : RTCands, cands = some c ∧ n = .choice r c) := by
  constructor
  · intro r
    rfl
  · intro r cands n h
    cases cands with
    | none => cases h
    | some c =>
      rw [RequirementTreeChoice_init] at h
      simp only [pyIterKeys] at h
      cases h
      exact ⟨c, rfl, rfl⟩
